import Mathlib

/-!
Verification of the request-execution core of the `tidb-cloud-go` SDK
(packages `pkg/errors`, `pkg/retry`, `pkg/auth`, `pkg/client`) against its
natural-language specification.  Go code is embedded shallowly:

* `time.Duration` values are Lean `Int` nanoseconds; Go `int64` overflow is
  modelled explicitly with `int64wrap`.
* `crypto/md5` is kept abstract: every digest computation is parametrised by
  a hash oracle `h : String → String` standing for the exact
  `md5 (byte list) → lowercase hex` primitive of the source; the theorems
  hold for every such oracle since the source only composes its inputs.
* `crypto/rand` (client-nonce generation) is parametrised by the fresh value.
* The HTTP transport (`http.Client.Do`) is an oracle mapping the index of a
  send within one dispatch and the request to a transport error or response.
-/

namespace TidbCloud

/-! ## pkg/errors (errors.go) -/

/-- One entry of an `APIError.Details` slice (`[]interface{}` in Go): either
the `map` appended by the rate-limit branch of `parseAPIError`, or an opaque
decoded payload entry passed through unchanged. -/
inductive Detail where
  | rateLimitReset (v : Int)
  | payload (s : String)
deriving DecidableEq, Repr

/-- `errors.APIError`: status code, TiDB Cloud application code (`int64`),
message and details, as in errors.go. -/
structure APIError where
  StatusCode : Int
  Code : Int
  Message : String
  Details : List Detail
deriving DecidableEq, Repr

namespace APIError

/-- `APIError.IsRateLimitError`: status 429 and application code 49900007. -/
def IsRateLimitError (e : APIError) : Bool :=
  e.StatusCode = 429 && e.Code = 49900007

/-- `APIError.IsRetryable`: the `switch` over
{429, 500, 502, 503, 504} in errors.go. -/
def IsRetryable (e : APIError) : Bool :=
  if e.StatusCode = 429 then true
  else if e.StatusCode = 500 then true
  else if e.StatusCode = 502 then true
  else if e.StatusCode = 503 then true
  else if e.StatusCode = 504 then true
  else false

/-- `APIError.IsAuthenticationError` (401). -/
def IsAuthenticationError (e : APIError) : Bool := e.StatusCode = 401

/-- `APIError.IsNotFoundError` (404). -/
def IsNotFoundError (e : APIError) : Bool := e.StatusCode = 404

end APIError

/-- A Go `error` value as seen by the retry layer: either a classified
`errors.APIError` (the type assertion in `ShouldRetry` succeeds) or any other
error (transport failure, etc.). -/
inductive GoError where
  | api (e : APIError)
  | transport (msg : String)
deriving DecidableEq, Repr

/-- Retryability of a `GoError` as the retry layer computes it: classified
errors delegate to `IsRetryable`, every other error is retryable. -/
def errRetryable : GoError → Bool
  | .api e => e.IsRetryable
  | .transport _ => true

/-! ## pkg/retry (retry.go) -/

/-- `retry.RetryPolicy`; delays are `time.Duration`, i.e. `int64`
nanoseconds, modelled as `Int` with explicit wrapping where the source can
overflow. -/
structure RetryPolicy where
  MaxAttempts : Int
  BaseDelay : Int
  MaxDelay : Int
deriving DecidableEq, Repr

/-- `retry.NewRetryPolicy()`: 3 attempts, base 1s, cap 30s (nanoseconds). -/
def NewRetryPolicy : RetryPolicy :=
  { MaxAttempts := 3, BaseDelay := 1000000000, MaxDelay := 30000000000 }

/-- Two's-complement wrap of an integer into `int64`, the semantics of Go's
signed multiplication in `CalculateDelay`. -/
def int64wrap (x : Int) : Int := (x + 2 ^ 63) % 2 ^ 64 - 2 ^ 63

/-- `RetryPolicy.ShouldRetry` from retry.go: budget check first, then the
type assertion on `errors.APIError`, `true` for any other error. -/
def ShouldRetry (p : RetryPolicy) (err : GoError) (attempt : Int) : Bool :=
  if attempt ≥ p.MaxAttempts then false
  else
    match err with
    | .api apiErr => apiErr.IsRetryable
    | .transport _ => true

/-- `RetryPolicy.CalculateDelay` from retry.go:
`delay := time.Duration(math.Pow(2, float64(attempt-1))) * p.BaseDelay`,
then capped at `MaxDelay`.  `math.Pow(2, k)` is exact for integer `k`, and
its truncation to `time.Duration` is `2^(attempt-1)` for `1 ≤ attempt ≤ 63`
(and `0` for `attempt ≤ 0`, since `2^k < 1` then); the model is faithful on
that range, beyond which the Go float-to-int64 conversion is
implementation-specific.  The `int64` multiplication by `BaseDelay` wraps. -/
def CalculateDelay (p : RetryPolicy) (attempt : Int) : Int :=
  let pw : Int := if 1 ≤ attempt then 2 ^ (attempt - 1).toNat else 0
  let delay := int64wrap (pw * p.BaseDelay)
  if delay > p.MaxDelay then p.MaxDelay else delay

/-- Outcome of `RetryExecutor.Execute`: `nil`, the last operation error, or
`ctx.Err()` after losing the backoff race to cancellation. -/
inductive ExecOutcome where
  | success
  | failure (e : GoError)
  | cancelled
deriving DecidableEq, Repr

/-- The loop of `RetryExecutor.Execute` (retry.go).  `op n` is the result of
the `n`-th invocation of the operation (`none` = `nil`); `cancel n` says
whether, in the `select` racing `ctx.Done()` against the
`time.After (CalculateDelay (n+1))` timer after failed invocation `n`,
cancellation fires first.  `rem` is the number of loop iterations still
allowed (`attempt <= MaxAttempts` in the source); `lastErr` is the `lastErr`
variable.  Returns the outcome together with the number of invocations of
the operation performed. -/
def executeLoop (p : RetryPolicy) (op : Nat → Option GoError) (cancel : Nat → Bool) :
    Nat → Nat → Option GoError → ExecOutcome × Nat
  | _, 0, lastErr =>
    ((match lastErr with | some e => .failure e | none => .success), 0)
  | attempt, rem + 1, _ =>
    match op attempt with
    | none => (.success, 1)
    | some err =>
      if ShouldRetry p err (attempt : Int) then
        if cancel attempt then (.cancelled, 1)
        else
          let r := executeLoop p op cancel (attempt + 1) rem (some err)
          (r.1, r.2 + 1)
      else (.failure err, 1)

/-- `RetryExecutor.Execute`: the loop runs for
`attempt = 0, 1, ..., MaxAttempts`, i.e. `(MaxAttempts+1).toNat`
iterations, starting with `lastErr = nil`. -/
def Execute (p : RetryPolicy) (op : Nat → Option GoError) (cancel : Nat → Bool) :
    ExecOutcome × Nat :=
  executeLoop p op cancel 0 (p.MaxAttempts + 1).toNat none

/-! ## pkg/client: the failure classifier (`parseAPIError` in client.go) -/

/-- The decoded JSON error body `models.ErrorResponse`
(`code`, `message` pointers and a `details` slice). -/
structure ErrorResponse where
  Code : Option Int
  Message : Option String
  Details : List Detail
deriving DecidableEq, Repr

/-- An HTTP response as the classifier and dispatcher consume it: status
code, the `WWW-Authenticate` and `X-Ratelimit-Reset` headers (empty string =
absent, as `Header.Get` reports), and the error body when it decodes as
`models.ErrorResponse` (`none` = decode failure). -/
structure Response where
  StatusCode : Int
  wwwAuthenticate : String
  rateLimitReset : String
  errorBody : Option ErrorResponse
deriving DecidableEq, Repr

/-- `http.StatusText` restricted to the statuses this SDK distinguishes
(Go returns the empty string for unknown codes). -/
def statusText (code : Int) : String :=
  if code = 400 then "Bad Request"
  else if code = 401 then "Unauthorized"
  else if code = 403 then "Forbidden"
  else if code = 404 then "Not Found"
  else if code = 429 then "Too Many Requests"
  else if code = 500 then "Internal Server Error"
  else if code = 502 then "Bad Gateway"
  else if code = 503 then "Service Unavailable"
  else if code = 504 then "Gateway Timeout"
  else ""

/-- Decimal digit run value; `none` on an empty or non-digit run. -/
def digitsToNat : List Char → Option Nat
  | [] => none
  | [c] => if c.isDigit then some (c.toNat - 48) else none
  | c :: cs => do
    let n ← digitsToNat cs
    if c.isDigit then some ((c.toNat - 48) * 10 ^ cs.length + n) else none

/-- `strconv.ParseInt(s, 10, 64)`: optional sign, decimal digits, and the
value must fit in `int64` (Go reports a range error otherwise). -/
def parseInt64 (s : String) : Option Int :=
  match s.toList with
  | '+' :: ds => do
    let n ← digitsToNat ds
    if (n : Int) ≤ 2 ^ 63 - 1 then some (n : Int) else none
  | '-' :: ds => do
    let n ← digitsToNat ds
    if (n : Int) ≤ 2 ^ 63 then some (-(n : Int)) else none
  | ds => do
    let n ← digitsToNat ds
    if (n : Int) ≤ 2 ^ 63 - 1 then some (n : Int) else none

/-- `Client.parseAPIError` from client.go: decode the error body (falling
back to `http.StatusText`), then on a 429 with a parseable
`X-Ratelimit-Reset` header append a `rate_limit_reset` entry to `Details`. -/
def parseAPIError (resp : Response) : APIError :=
  let apiError : APIError :=
    { StatusCode := resp.StatusCode, Code := 0, Message := "", Details := [] }
  let apiError :=
    match resp.errorBody with
    | some errorResp =>
      { apiError with
        Code := match errorResp.Code with | some c => c | none => apiError.Code
        Message := match errorResp.Message with | some m => m | none => apiError.Message
        Details := errorResp.Details }
    | none => { apiError with Message := statusText resp.StatusCode }
  if resp.StatusCode = 429 then
    if resp.rateLimitReset ≠ "" then
      match parseInt64 resp.rateLimitReset with
      | some resetTime =>
        { apiError with Details := apiError.Details ++ [.rateLimitReset resetTime] }
      | none => apiError
    else apiError
  else apiError

/-! ## pkg/auth (digest.go)

`parseKeyValuePairs` runs the Go regular expression
`(\w+)=(?:"([^"]*)"|([^,\s]+))` with `FindAllStringSubmatch`: repeated
leftmost matches, the quoted alternative preferred, `\w+` and `[^,\s]+`
greedy.  `matchAt` reproduces one match attempt anchored at the head of the
input (greedy `\w+` needs no backtracking: only the maximal word run can be
followed by `=`; the quoted alternative fails only when no closing quote
exists, in which case the unquoted one starts at the `"`). -/

/-- RE2 `\w` (ASCII). -/
def isWordChar (c : Char) : Bool := c.isAlpha || c.isDigit || c = '_'

/-- RE2 `\s` (ASCII). -/
def isSpaceChar (c : Char) : Bool :=
  c = ' ' || c = '\t' || c = '\n' || c = '\x0c' || c = '\r'

/-- One anchored match attempt of the challenge-pair pattern: returns
(group 1, group 2, group 3) — the unused value group empty — and the input
remaining after the matched text, or `none` when no match starts here. -/
def matchAt (s : List Char) : Option ((String × String × String) × List Char) :=
  let key := s.takeWhile isWordChar
  if key.isEmpty then none
  else
    let after := s.drop key.length
    if after.head? = some '=' then
      let rest := after.tail
      if rest.head? = some '"' then
        let v := rest.tail.takeWhile (fun x => x ≠ '"')
        let rem := rest.tail.drop v.length
        if rem.head? = some '"' then some ((key.asString, v.asString, ""), rem.tail)
        else
          let v2 := rest.takeWhile (fun x => !isSpaceChar x && x ≠ ',')
          some ((key.asString, "", v2.asString), rest.drop v2.length)
      else
        let v2 := rest.takeWhile (fun x => !isSpaceChar x && x ≠ ',')
        if v2.isEmpty then none
        else some ((key.asString, "", v2.asString), rest.drop v2.length)
    else none

/-- Left-to-right scan collecting non-overlapping leftmost matches; `fuel`
bounds the recursion and `s.length` always suffices since every step
consumes at least one character. -/
def findAllAux : Nat → List Char → List (String × String × String)
  | 0, _ => []
  | fuel + 1, s =>
    match matchAt s with
    | some (m, rest) => m :: findAllAux fuel rest
    | none =>
      match s with
      | [] => []
      | _ :: t => findAllAux fuel t

/-- All submatches of the pattern in `s`, in order. -/
def findAll (s : List Char) : List (String × String × String) :=
  findAllAux s.length s

/-- The Go loop body over a submatch: `value := match[2]`, falling back to
`match[3]` when the quoted group is empty. -/
def groupValue (m : String × String × String) : String × String :=
  (m.1, if m.2.1 = "" then m.2.2 else m.2.1)

/-- The pairs of `parseKeyValuePairs` in insertion order (the Go map is this
list read with later entries overriding earlier ones, see `lookupPair`). -/
def pairsOf (data : List Char) : List (String × String) :=
  (findAll data).map groupValue

/-- `parseKeyValuePairs` on a Go string. -/
def parseKeyValuePairs (data : String) : List (String × String) :=
  pairsOf data.toList

/-- Reading the Go `map[string]string` built by insertion: the value of the
last insertion for `k`, or the zero value `""` when `k` is absent. -/
def lookupPair (ps : List (String × String)) (k : String) : String :=
  match ps.reverse.find? (fun p => p.1 = k) with
  | some p => p.2
  | none => ""

/-- A rendered challenge pair as a client would emit it: key, value, and
whether the value is written inside quotes. -/
def renderPair (p : String × String × Bool) : List Char :=
  p.1.toList ++ '=' :: (if p.2.2 then '"' :: (p.2.1.toList ++ ['"']) else p.2.1.toList)

/-- A comma-space separated list of rendered pairs — the well-formed
challenge bodies the specification quantifies over. -/
def renderPairs : List (String × String × Bool) → List Char
  | [] => []
  | [p] => renderPair p
  | p :: q :: tl => renderPair p ++ ',' :: ' ' :: renderPairs (q :: tl)

/-- Well-formedness of one rendered pair: a non-empty word-character key,
and a value that is either quoted (no quote characters inside) or unquoted
(non-empty, no comma or whitespace, not starting with a quote). -/
def WFPair (p : String × String × Bool) : Prop :=
  ¬ p.1 = "" ∧ (∀ c ∈ p.1.toList, isWordChar c = true) ∧
  ((p.2.2 = true ∧ ∀ c ∈ p.2.1.toList, ¬ c = '"') ∨
   (p.2.2 = false ∧ ¬ p.2.1 = "" ∧
     (∀ c ∈ p.2.1.toList, isSpaceChar c = false ∧ ¬ c = ',') ∧
     ¬ p.2.1.toList.head? = some '"'))

instance : DecidablePred WFPair := fun p => by
  unfold WFPair
  infer_instance

/-- `strings.HasPrefix` on character lists. -/
def hasPrefixChars : List Char → List Char → Bool
  | _, [] => true
  | [], _ :: _ => false
  | c :: cs, p :: ps => c = p && hasPrefixChars cs ps

/-- `auth.DigestAuth`: the mutable per-client authentication state. -/
structure DigestAuth where
  realm : String
  nonce : String
  qop : String
  opaqueV : String
  algorithm : String
  nc : Int
  cnonce : String
deriving DecidableEq, Repr

/-- `auth.NewDigestAuth()`: zero-valued fields with nonce count 1. -/
def NewDigestAuth : DigestAuth :=
  { realm := "", nonce := "", qop := "", opaqueV := "", algorithm := ""
    nc := 1, cnonce := "" }

/-- `DigestAuth.ParseChallenge`: the Go method mutates the receiver and
returns an error; modelled as (error message?, state after the call).
`freshCnonce` stands for the `generateCnonce()` draw from `crypto/rand`
made on the success path. -/
def ParseChallenge (d : DigestAuth) (freshCnonce : String) (authHeader : String) :
    Option String × DigestAuth :=
  if authHeader = "" then (some "empty auth header", d)
  else if hasPrefixChars authHeader.toList "Digest ".toList = false then
    (some "not a digest auth header", d)
  else
    let pairs := pairsOf (authHeader.toList.drop 7)
    let d := { d with
      realm := lookupPair pairs "realm"
      nonce := lookupPair pairs "nonce"
      qop := lookupPair pairs "qop"
      opaqueV := lookupPair pairs "opaque"
      algorithm := lookupPair pairs "algorithm" }
    let d := if d.algorithm = "" then { d with algorithm := "MD5" } else d
    if d.realm = "" then (some "missing realm in digest challenge", d)
    else if d.nonce = "" then (some "missing nonce in digest challenge", d)
    else (none, { d with cnonce := freshCnonce })

/-- The lowercase hexadecimal character of a digit value below 16. -/
def hexChar (n : Nat) : Char :=
  if n < 10 then Char.ofNat (48 + n) else Char.ofNat (87 + n)

/-- The lowercase hexadecimal digits of `n`, most significant first and
without leading zeros (empty for 0 — a width's zero padding supplies the
digit, as in `%08x`). -/
def hexDigitsOf (n : Nat) : List Char :=
  (Nat.digits 16 n).reverse.map hexChar

/-- Go `fmt.Sprintf("%08x", n)` on an integer: lowercase hexadecimal,
zero-padded to width 8 (sign first for negatives). -/
def fmtHex8 (n : Int) : String :=
  if n < 0 then
    "-" ++ (List.replicate (7 - (hexDigitsOf (-n).toNat).length) '0' ++
      hexDigitsOf (-n).toNat).asString
  else
    (List.replicate (8 - (hexDigitsOf n.toNat).length) '0' ++
      hexDigitsOf n.toNat).asString

/-- `generateHA1`: `md5hex(username ":" realm ":" password)`; `h` is the
`md5 → lowercase hex` primitive. -/
def generateHA1 (h : String → String) (d : DigestAuth) (username password : String) : String :=
  h (username ++ ":" ++ d.realm ++ ":" ++ password)

/-- `generateHA2`: `md5hex(method ":" uri)`. -/
def generateHA2 (h : String → String) (method uri : String) : String :=
  h (method ++ ":" ++ uri)

/-- `generateResponseWithQop`:
`md5hex(ha1 ":" nonce ":" nc8 ":" cnonce ":" qop ":" ha2)`. -/
def generateResponseWithQop (h : String → String) (d : DigestAuth) (ha1 ha2 : String) : String :=
  h (ha1 ++ ":" ++ d.nonce ++ ":" ++ fmtHex8 d.nc ++ ":" ++ d.cnonce ++ ":" ++
     d.qop ++ ":" ++ ha2)

/-- `generateResponseWithoutQop`: `md5hex(ha1 ":" nonce ":" ha2)`. -/
def generateResponseWithoutQop (h : String → String) (d : DigestAuth) (ha1 ha2 : String) : String :=
  h (ha1 ++ ":" ++ d.nonce ++ ":" ++ ha2)

/-- The `response` value `GenerateAuthHeader` computes: the qop branch of
digest.go. -/
def digestResponse (h : String → String) (d : DigestAuth)
    (username password method uri : String) : String :=
  let ha1 := generateHA1 h d username password
  let ha2 := generateHA2 h method uri
  if d.qop = "auth" then generateResponseWithQop h d ha1 ha2
  else generateResponseWithoutQop h d ha1 ha2

/-- The `strings.Builder` serialization of `GenerateAuthHeader`: mandatory
fields, then qop/nc/cnonce when qop is set, then opaque and algorithm when
present. -/
def serializeAuthHeader (d : DigestAuth) (username uri response : String) : String :=
  let base := "Digest username=\"" ++ username ++ "\", realm=\"" ++ d.realm ++
    "\", nonce=\"" ++ d.nonce ++ "\", uri=\"" ++ uri ++ "\", response=\"" ++
    response ++ "\""
  let base := if d.qop ≠ "" then
      base ++ ", qop=" ++ d.qop ++ ", nc=" ++ fmtHex8 d.nc ++
        ", cnonce=\"" ++ d.cnonce ++ "\""
    else base
  let base := if d.opaqueV ≠ "" then base ++ ", opaque=\"" ++ d.opaqueV ++ "\"" else base
  if d.algorithm ≠ "" then base ++ ", algorithm=" ++ d.algorithm else base

/-- `DigestAuth.GenerateAuthHeader`: empty when no nonce is stored,
otherwise the serialized credential header around `digestResponse`. -/
def GenerateAuthHeader (h : String → String) (d : DigestAuth)
    (username password method uri : String) : String :=
  if d.nonce = "" then ""
  else serializeAuthHeader d username uri (digestResponse h d username password method uri)

/-! ## pkg/client: the dispatcher (`executeHTTPRequest` in client.go) -/

/-- An `http.Request` as the dispatcher uses it: method, URL (with its path
component as `net/url` exposes it), headers, and the buffered body bytes
(`none` = no body). -/
structure Request where
  Method : String
  URL : String
  Path : String
  Header : List (String × List String)
  Body : Option (List Nat)
deriving DecidableEq, Repr

/-- Setting a header key to a single value (`Header.Set`). -/
def headerSet (hdr : List (String × List String)) (k v : String) :
    List (String × List String) :=
  hdr.filter (fun p => p.1 ≠ k) ++ [(k, [v])]

/-- The credential-bearing fields of `client.Client` used by the
dispatcher. -/
structure ClientState where
  publicKey : String
  privateKey : String
  digestAuth : DigestAuth
deriving DecidableEq, Repr

/-- Result of one `executeHTTPRequest` call: the returned value, the
requests handed to `http.Client.Do` in order, and the authentication state
after the call. -/
structure DispatchResult where
  result : Except String Response
  sent : List Request
  finalAuth : DigestAuth
deriving Repr

/-- `Client.executeHTTPRequest` (client.go): send the caller's request
as-is (its body re-wrapped from the buffered bytes); on a 401 carrying a
`WWW-Authenticate` header, parse the challenge, rebuild the request with the
same method/URL/headers and a fresh copy of the buffered body, attach the
generated `Authorization` header and send exactly once more, returning that
second result directly.  `httpDo n q` is the transport's answer to the
`n`-th send of this call, `h` the md5 oracle and `cn` the fresh client
nonce drawn if a challenge is parsed. -/
def executeHTTPRequest (h : String → String) (cn : String)
    (httpDo : Nat → Request → Except String Response)
    (c : ClientState) (req : Request) : DispatchResult :=
  match httpDo 0 req with
  | .error e => { result := .error e, sent := [req], finalAuth := c.digestAuth }
  | .ok resp =>
    if resp.StatusCode = 401 ∧ resp.wwwAuthenticate ≠ "" then
      match ParseChallenge c.digestAuth cn resp.wwwAuthenticate with
      | (some err, d1) =>
        { result := .error ("failed to parse auth challenge: " ++ err)
          sent := [req], finalAuth := d1 }
      | (none, d1) =>
        let authValue := GenerateAuthHeader h d1 c.publicKey c.privateKey req.Method req.Path
        let newReq : Request :=
          { Method := req.Method, URL := req.URL, Path := req.Path
            Header := headerSet req.Header "Authorization" authValue
            Body := req.Body }
        { result := httpDo 1 newReq, sent := [req, newReq], finalAuth := d1 }
    else { result := .ok resp, sent := [req], finalAuth := c.digestAuth }

/-- `ShouldRetry` written through `errRetryable` (same match, named). -/
theorem shouldRetry_eq (p : RetryPolicy) (err : GoError) (a : Int) :
    ShouldRetry p err a = if a ≥ p.MaxAttempts then false else errRetryable err := by
  cases err <;> rfl

/-- One unfolding of the `Execute` loop when iterations remain. -/
theorem executeLoop_succ (p : RetryPolicy) (op : Nat → Option GoError)
    (cancel : Nat → Bool) (attempt rem : Nat) (lastErr : Option GoError) :
    executeLoop p op cancel attempt (rem + 1) lastErr =
      match op attempt with
      | none => (.success, 1)
      | some err =>
        if ShouldRetry p err (attempt : Int) then
          if cancel attempt then (.cancelled, 1)
          else
            ((executeLoop p op cancel (attempt + 1) rem (some err)).1,
             (executeLoop p op cancel (attempt + 1) rem (some err)).2 + 1)
        else (.failure err, 1) := rfl

end TidbCloud

namespace TidbCloud

/-- Loop unfolding when the current invocation fails. -/
theorem executeLoop_succ_some (p : RetryPolicy) (o : Nat → Option GoError)
    (c : Nat → Bool) (attempt rem : Nat) (le : Option GoError) (err : GoError)
    (h : o attempt = some err) :
    executeLoop p o c attempt (rem + 1) le =
      if ShouldRetry p err (attempt : Int) then
        if c attempt then (.cancelled, 1)
        else
          ((executeLoop p o c (attempt + 1) rem (some err)).1,
           (executeLoop p o c (attempt + 1) rem (some err)).2 + 1)
      else (.failure err, 1) := by
  rw [executeLoop_succ, h]

/-- Loop unfolding when the current invocation succeeds. -/
theorem executeLoop_succ_none (p : RetryPolicy) (o : Nat → Option GoError)
    (c : Nat → Bool) (attempt rem : Nat) (le : Option GoError)
    (h : o attempt = none) :
    executeLoop p o c attempt (rem + 1) le = (.success, 1) := by
  rw [executeLoop_succ, h]

/-- When every invocation fails with a retryable error and nothing cancels,
the loop consumes its whole iteration budget and returns the error of the
final invocation. -/
theorem executeLoop_all_retryable (p : RetryPolicy) (op : Nat → GoError)
    (cancel : Nat → Bool) (hcancel : ∀ n, cancel n = false)
    (hret : ∀ n, errRetryable (op n) = true) :
    ∀ (rem a : Nat) (le : Option GoError), 1 ≤ rem →
      (a : Int) + rem = p.MaxAttempts + 1 →
      executeLoop p (fun n => some (op n)) cancel a rem le =
        (.failure (op (a + rem - 1)), rem) := by
  intro rem
  induction rem with
  | zero => intro a le h1 _; omega
  | succ r ih =>
    intro a le _ hsum
    rw [executeLoop_succ]
    simp only []
    cases r with
    | zero =>
      have hstop : ShouldRetry p (op a) (a : Int) = false := by
        rw [shouldRetry_eq, if_pos (by omega)]
      rw [hstop]
      simp
    | succ r' =>
      have hgo : ShouldRetry p (op a) (a : Int) = true := by
        rw [shouldRetry_eq, if_neg (by omega)]
        exact hret a
      rw [hgo, hcancel a]
      simp only [if_true, if_false, Bool.false_eq_true]
      rw [ih (a + 1) (some (op a)) (by omega) (by push_cast; omega)]
      have harg : a + 1 + (r' + 1) - 1 = a + (r' + 1 + 1) - 1 := by omega
      rw [harg]

/-- Whenever the loop returns an operation error, it is the error produced by
the final invocation it made (or, with zero iterations, the incoming
`lastErr`). -/
theorem executeLoop_failure_last (p : RetryPolicy) (o : Nat → Option GoError)
    (c : Nat → Bool) :
    ∀ (rem a : Nat) (le : Option GoError) (e : GoError) (n : Nat),
      executeLoop p o c a rem le = (.failure e, n) →
      (1 ≤ n ∧ o (a + n - 1) = some e) ∨ (n = 0 ∧ le = some e) := by
  intro rem
  induction rem with
  | zero =>
    intro a le e n h
    cases le with
    | none => exact absurd h (by simp [executeLoop])
    | some e' =>
      refine Or.inr ?_
      simp only [executeLoop, Prod.mk.injEq] at h
      obtain ⟨h1, h2⟩ := h
      injection h1 with h1
      exact ⟨h2.symm, by rw [h1]⟩
  | succ r ih =>
    intro a le e n h
    cases hop : o a with
    | none =>
      rw [executeLoop_succ_none p o c a r le hop] at h
      exact absurd h (by simp)
    | some err =>
      rw [executeLoop_succ_some p o c a r le err hop] at h
      by_cases hsr : ShouldRetry p err (a : Int) = true
      · rw [hsr] at h
        simp only [if_true] at h
        by_cases hc : c a = true
        · rw [hc] at h; exact absurd h (by simp)
        · rw [Bool.not_eq_true] at hc
          rw [hc] at h
          simp only [Bool.false_eq_true, if_false, Prod.mk.injEq] at h
          obtain ⟨h1, h2⟩ := h
          rcases ih (a + 1) (some err) e ((executeLoop p o c (a + 1) r (some err)).2)
              (by rw [← h1]) with ⟨hn, hlast⟩ | ⟨hn, hle⟩
          · refine Or.inl ⟨by omega, ?_⟩
            rw [← h2]
            convert hlast using 2
            omega
          · refine Or.inl ⟨by omega, ?_⟩
            have hn1 : n = 1 := by omega
            rw [hn1]
            simpa [hop] using hle
      · rw [Bool.not_eq_true] at hsr
        rw [hsr] at h
        simp only [Bool.false_eq_true, if_false, Prod.mk.injEq] at h
        obtain ⟨h1, h2⟩ := h
        injection h1 with h1
        refine Or.inl ⟨by omega, ?_⟩
        rw [← h2]
        simpa [hop] using congrArg some h1

/-- C5: `ShouldRetry(err, attempt)` is false whenever `attempt >= maxAttempts`;
otherwise it is true exactly when `err` is an unstructured (transport) error
or a classified `APIError` whose status code lies in
{429, 500, 502, 503, 504}; classified errors with any other status are never
retried. -/
theorem shouldRetry_characterisation (p : RetryPolicy) (err : GoError) (attempt : Int) :
    ShouldRetry p err attempt = true ↔
      attempt < p.MaxAttempts ∧
        ((∃ msg, err = .transport msg) ∨
          (∃ e, err = .api e ∧
            (e.StatusCode = 429 ∨ e.StatusCode = 500 ∨ e.StatusCode = 502 ∨
              e.StatusCode = 503 ∨ e.StatusCode = 504))) := by
  rw [shouldRetry_eq]
  by_cases h : attempt ≥ p.MaxAttempts
  · simp only [if_pos h]
    constructor
    · intro hfalse; exact absurd hfalse (by simp)
    · rintro ⟨hlt, -⟩; omega
  · simp only [if_neg h]
    cases err with
    | transport msg =>
      simp only [errRetryable]
      constructor
      · intro _; exact ⟨by omega, Or.inl ⟨msg, rfl⟩⟩
      · intro _; trivial
    | api e =>
      simp only [errRetryable, APIError.IsRetryable]
      constructor
      · intro htrue
        refine ⟨by omega, Or.inr ⟨e, rfl, ?_⟩⟩
        by_contra hnone
        push_neg at hnone
        obtain ⟨h1, h2, h3, h4, h5⟩ := hnone
        simp [h1, h2, h3, h4, h5] at htrue
      · rintro ⟨-, hor⟩
        rcases hor with ⟨msg, hmsg⟩ | ⟨e', he', hstat⟩
        · exact absurd hmsg (by simp)
        · obtain rfl : e' = e := by injection he'.symm
          rcases hstat with h1 | h1 | h1 | h1 | h1 <;> simp [h1]

/-- C1: with `maxAttempts = 3`, an operation failing on every invocation
with a retryable (classified-retryable or transport) error is invoked
exactly 4 times (1 initial attempt + 3 retries) and the error of the last
invocation is returned; an operation always failing with a non-retryable
classified error is invoked exactly once; and whenever retries are
exhausted, `Execute` returns the error produced by its final invocation of
the operation — never a synthetic "retries exhausted" error. -/
theorem execute_retry_budget (p : RetryPolicy) (hp : p.MaxAttempts = 3)
    (op op2 : Nat → GoError) (cancel cancel2 : Nat → Bool)
    (hret : ∀ n, errRetryable (op n) = true)
    (hcancel : ∀ n, cancel n = false)
    (hnon : ∀ n, errRetryable (op2 n) = false) :
    Execute p (fun n => some (op n)) cancel = (.failure (op 3), 4) ∧
    Execute p (fun n => some (op2 n)) cancel2 = (.failure (op2 0), 1) ∧
    ∀ (q : RetryPolicy) (o : Nat → Option GoError) (c : Nat → Bool)
      (e : GoError) (n : Nat),
      Execute q o c = (.failure e, n) → 1 ≤ n ∧ o (n - 1) = some e := by
  refine ⟨?_, ?_, ?_⟩
  · have h4 : (p.MaxAttempts + 1).toNat = 4 := by rw [hp]; rfl
    show executeLoop p (fun n => some (op n)) cancel 0 (p.MaxAttempts + 1).toNat none = _
    rw [h4,
      executeLoop_all_retryable p op cancel hcancel hret 4 0 none (by omega)
        (by rw [hp]; rfl)]
  · have h4 : (p.MaxAttempts + 1).toNat = 4 := by rw [hp]; rfl
    show executeLoop p (fun n => some (op2 n)) cancel2 0 (p.MaxAttempts + 1).toNat none = _
    rw [h4, show (4 : Nat) = 3 + 1 from rfl,
      executeLoop_succ_some p _ cancel2 0 3 none (op2 0) rfl]
    have hstop : ShouldRetry p (op2 0) ((0 : Nat) : Int) = false := by
      rw [shouldRetry_eq, hnon 0, ite_self]
    rw [hstop]
    simp
  · intro q o c e n h
    rcases executeLoop_failure_last q o c (q.MaxAttempts + 1).toNat 0 none e n h with
      ⟨h1, h2⟩ | ⟨-, hle⟩
    · exact ⟨h1, by simpa using h2⟩
    · exact absurd hle (by simp)

/-- Closed witness for the retry-budget theorem: the always-transport-failing
operation is invoked 4 times under the default policy and the final error is
returned; the always-400 operation is invoked once. -/
theorem execute_retry_budget_witness :
    Execute NewRetryPolicy (fun _ => some (.transport "dial tcp: refused")) (fun _ => false) =
      (.failure (.transport "dial tcp: refused"), 4) ∧
    Execute NewRetryPolicy (fun _ => some (.api ⟨400, 0, "", []⟩)) (fun _ => false) =
      (.failure (.api ⟨400, 0, "", []⟩), 1) :=
  ⟨(execute_retry_budget NewRetryPolicy rfl (fun _ => .transport "dial tcp: refused")
      (fun _ => .api ⟨400, 0, "", []⟩) (fun _ => false) (fun _ => false)
      (fun _ => rfl) (fun _ => rfl) (fun _ => rfl)).1,
   (execute_retry_budget NewRetryPolicy rfl (fun _ => .transport "dial tcp: refused")
      (fun _ => .api ⟨400, 0, "", []⟩) (fun _ => false) (fun _ => false)
      (fun _ => rfl) (fun _ => rfl) (fun _ => rfl)).2.1⟩

/-- C7: if the executor reaches the backoff wait after failed invocation `k`
(all invocations up to `k` failed retryably within budget, no earlier
cancellation) and the caller's context is cancelled during that wait, then
`Execute` returns the cancellation outcome: the pending operation error is
discarded and the operation is invoked exactly `k + 1` times — never again
after the cancelled wait. -/
theorem execute_cancellation_precedence (p : RetryPolicy) (op : Nat → GoError)
    (cancel : Nat → Bool) (k : Nat)
    (hret : ∀ i, i ≤ k → errRetryable (op i) = true)
    (hbudget : (k : Int) < p.MaxAttempts)
    (hc : ∀ i, i < k → cancel i = false)
    (hck : cancel k = true) :
    Execute p (fun n => some (op n)) cancel = (.cancelled, k + 1) := by
  have main : ∀ (j a rem : Nat) (le : Option GoError),
      (∀ i, a + i ≤ k → errRetryable (op (a + i)) = true) →
      (∀ i, a + i < k → cancel (a + i) = false) →
      a + j = k → ((a : Int) + j) < p.MaxAttempts → j < rem →
      executeLoop p (fun n => some (op n)) cancel a rem le = (.cancelled, j + 1) := by
    intro j
    induction j with
    | zero =>
      intro a rem le h1 _ hak hbud hrem
      obtain ⟨r, rfl⟩ : ∃ r, rem = r + 1 := ⟨rem - 1, by omega⟩
      rw [executeLoop_succ_some p _ cancel a r le (op a) rfl]
      have hgo : ShouldRetry p (op a) (a : Int) = true := by
        rw [shouldRetry_eq, if_neg (by omega)]
        exact h1 0 (by omega)
      rw [hgo, show cancel a = true from by rw [show a = k from by omega]; exact hck]
      simp
    | succ j' ih =>
      intro a rem le h1 h2 hak hbud hrem
      obtain ⟨r, rfl⟩ : ∃ r, rem = r + 1 := ⟨rem - 1, by omega⟩
      rw [executeLoop_succ_some p _ cancel a r le (op a) rfl]
      have hgo : ShouldRetry p (op a) (a : Int) = true := by
        rw [shouldRetry_eq, if_neg (by omega)]
        exact h1 0 (by omega)
      rw [hgo, show cancel a = false from by simpa using h2 0 (by omega)]
      simp only [if_true, Bool.false_eq_true, if_false]
      rw [ih (a + 1) r (some (op a))
        (fun i hi => by
          have e : a + 1 + i = a + (i + 1) := by omega
          rw [e]; exact h1 (i + 1) (by omega))
        (fun i hi => by
          have e : a + 1 + i = a + (i + 1) := by omega
          rw [e]; exact h2 (i + 1) (by omega))
        (by omega) (by push_cast; omega) (by omega)]
  have hrem : k < (p.MaxAttempts + 1).toNat := by omega
  exact main k 0 (p.MaxAttempts + 1).toNat none
    (fun i hi => by simpa using hret i (by omega))
    (fun i hi => by simpa using hc i (by omega))
    (by omega) (by push_cast; omega) hrem

/-- Closed witness for cancellation precedence: cancelling during the first
backoff wait yields the cancellation outcome after exactly one invocation. -/
theorem execute_cancellation_precedence_witness :
    Execute NewRetryPolicy (fun _ => some (.api ⟨503, 0, "unavailable", []⟩))
      (fun _ => true) = (.cancelled, 1) :=
  execute_cancellation_precedence NewRetryPolicy
    (fun _ => .api ⟨503, 0, "unavailable", []⟩) (fun _ => true) 0
    (fun _ _ => rfl) (by decide) (fun i hi => absurd hi (by omega)) rfl

/-- C8: classifying a 429 response whose `X-Ratelimit-Reset` header parses
as an integer appends a `rate_limit_reset` entry with the parsed value to
the classified error's `Details`; and `IsRateLimitError` holds exactly when
the status is 429 and the application code is the sentinel 49900007. -/
theorem classify_rate_limit (resp : Response) (t : Int)
    (h429 : resp.StatusCode = 429)
    (hreset : parseInt64 resp.rateLimitReset = some t) :
    (∃ ds, (parseAPIError resp).Details = ds ++ [Detail.rateLimitReset t]) ∧
    ∀ e : APIError, e.IsRateLimitError = true ↔
      (e.StatusCode = 429 ∧ e.Code = 49900007) := by
  constructor
  · have hne : resp.rateLimitReset ≠ "" := by
      intro h
      rw [h, show parseInt64 "" = none from rfl] at hreset
      exact Option.noConfusion hreset
    unfold parseAPIError
    rw [if_pos h429, if_pos hne, hreset]
    exact ⟨_, rfl⟩
  · intro e
    simp [APIError.IsRateLimitError]

/-- Closed witness: spec scenario C, a 429 with the sentinel code and
`X-Ratelimit-Reset: 1700000000`. -/
theorem classify_rate_limit_witness :
    (∃ ds, (parseAPIError
        ⟨429, "", "1700000000", some ⟨some 49900007, some "rate limited", []⟩⟩).Details
      = ds ++ [Detail.rateLimitReset 1700000000]) ∧
    ∀ e : APIError, e.IsRateLimitError = true ↔
      (e.StatusCode = 429 ∧ e.Code = 49900007) :=
  classify_rate_limit
    ⟨429, "", "1700000000", some ⟨some 49900007, some "rate limited", []⟩⟩
    1700000000 rfl rfl

/-- C9: for every state whose stored nonce is empty — in particular the
freshly constructed `NewDigestAuth`, before any successful challenge parse —
`GenerateAuthHeader` returns the empty string on all inputs (and, being a
total function, never fails). -/
theorem generateAuthHeader_not_ready (h : String → String) (d : DigestAuth)
    (username password method uri : String) (hn : d.nonce = "") :
    GenerateAuthHeader h d username password method uri = "" ∧
    GenerateAuthHeader h NewDigestAuth username password method uri = "" := by
  constructor
  · unfold GenerateAuthHeader
    rw [if_pos hn]
  · rfl

/-- Closed witness: a state with realm and qop set but no nonce, and the
fresh state, both yield the empty header. -/
theorem generateAuthHeader_not_ready_witness :
    GenerateAuthHeader (fun s => s) ⟨"tidbcloud", "", "auth", "", "MD5", 1, "cn"⟩
      "user" "secret" "GET" "/api/v1beta/projects" = "" ∧
    GenerateAuthHeader (fun s => s) NewDigestAuth
      "user" "secret" "GET" "/api/v1beta/projects" = "" :=
  generateAuthHeader_not_ready (fun s => s)
    ⟨"tidbcloud", "", "auth", "", "MD5", 1, "cn"⟩
    "user" "secret" "GET" "/api/v1beta/projects" rfl

/-- C3: with a stored nonce, the response hash emitted by
`GenerateAuthHeader` is `h(H1:nonce:nc8:cnonce:qop:H2)` when the stored qop
is `"auth"` and `h(H1:nonce:H2)` otherwise, where
`H1 = h(username:realm:password)`, `H2 = h(method:uri)`, `h` is the
`md5 → lowercase hex` primitive and `nc8` is the nonce count as (at least) 8
zero-padded lowercase hexadecimal digits — exactly 8, over the lowercase
hex alphabet, whenever `0 ≤ nc < 2^32`. -/
theorem generateAuthHeader_response_formula (h : String → String) (d : DigestAuth)
    (username password method uri : String) (hn : d.nonce ≠ "") :
    GenerateAuthHeader h d username password method uri =
      serializeAuthHeader d username uri
        (if d.qop = "auth" then
          h (h (username ++ ":" ++ d.realm ++ ":" ++ password) ++ ":" ++ d.nonce ++ ":" ++
             fmtHex8 d.nc ++ ":" ++ d.cnonce ++ ":" ++ d.qop ++ ":" ++
             h (method ++ ":" ++ uri))
        else
          h (h (username ++ ":" ++ d.realm ++ ":" ++ password) ++ ":" ++ d.nonce ++ ":" ++
             h (method ++ ":" ++ uri))) ∧
    (0 ≤ d.nc → d.nc < 2 ^ 32 →
      (fmtHex8 d.nc).length = 8 ∧
      ∀ c ∈ (fmtHex8 d.nc).toList, c ∈ "0123456789abcdef".toList) := by
  constructor
  · unfold GenerateAuthHeader digestResponse generateResponseWithQop
      generateResponseWithoutQop generateHA1 generateHA2
    rw [if_neg hn]
  · intro hnc0 hnc32
    have hlen : (hexDigitsOf d.nc.toNat).length ≤ 8 := by
      have hlen2 : (Nat.digits 16 d.nc.toNat).length ≤ 8 := by
        by_cases hz : d.nc.toNat = 0
        · simp [hz]
        · have h1 : (16 : Nat) ^ (Nat.digits 16 d.nc.toNat).length ≤ 16 * d.nc.toNat :=
            Nat.base_pow_length_digits_le 16 _ (by norm_num) hz
          have h2 : 16 * d.nc.toNat < 16 ^ 9 := by
            have h3 : d.nc.toNat < 2 ^ 32 := by omega
            calc 16 * d.nc.toNat < 16 * 2 ^ 32 := by omega
              _ ≤ 16 ^ 9 := by norm_num
          have h4 : (Nat.digits 16 d.nc.toNat).length < 9 :=
            (Nat.pow_lt_pow_iff_right (by norm_num : 1 < 16)).mp (lt_of_le_of_lt h1 h2)
          omega
      simpa [hexDigitsOf] using hlen2
    have hneg : ¬ d.nc < 0 := by omega
    constructor
    · show (fmtHex8 d.nc).toList.length = 8
      unfold fmtHex8
      rw [if_neg hneg]
      simp [List.length_replicate]
      omega
    · intro c hc
      unfold fmtHex8 at hc
      rw [if_neg hneg] at hc
      have hc2 : c ∈ List.replicate (8 - (hexDigitsOf d.nc.toNat).length) '0' ++
          hexDigitsOf d.nc.toNat := hc
      rcases List.mem_append.mp hc2 with hrep | hdig
      · rw [List.eq_of_mem_replicate hrep]
        decide
      · simp only [hexDigitsOf, List.mem_map, List.mem_reverse] at hdig
        obtain ⟨dig, hmem, rfl⟩ := hdig
        have hlt : dig < 16 := Nat.digits_lt_base (by norm_num) hmem
        unfold hexChar
        interval_cases dig <;> decide

/-- Closed witness for the response formula: the qop="auth" state produced
by the spec's example challenge yields the documented double-hash shape,
and the nonce count 1 renders as 8 lowercase hex digits. -/
theorem generateAuthHeader_response_formula_witness :
    (GenerateAuthHeader (fun s => "H<" ++ s ++ ">")
        ⟨"tidbcloud", "abc123", "auth", "", "MD5", 1, "cn456"⟩
        "pub" "priv" "GET" "/p" =
      serializeAuthHeader ⟨"tidbcloud", "abc123", "auth", "", "MD5", 1, "cn456"⟩
        "pub" "/p"
        ("H<" ++ ("H<" ++ ("pub" ++ ":" ++ "tidbcloud" ++ ":" ++ "priv") ++ ">" ++ ":" ++
          "abc123" ++ ":" ++ fmtHex8 1 ++ ":" ++ "cn456" ++ ":" ++ "auth" ++ ":" ++
          ("H<" ++ ("GET" ++ ":" ++ "/p") ++ ">")) ++ ">")) ∧
    (fmtHex8 1).length = 8 ∧
    ∀ c ∈ (fmtHex8 1).toList, c ∈ "0123456789abcdef".toList :=
  ⟨(generateAuthHeader_response_formula (fun s => "H<" ++ s ++ ">")
      ⟨"tidbcloud", "abc123", "auth", "", "MD5", 1, "cn456"⟩
      "pub" "priv" "GET" "/p" (by decide)).1,
   (generateAuthHeader_response_formula (fun s => "H<" ++ s ++ ">")
      ⟨"tidbcloud", "abc123", "auth", "", "MD5", 1, "cn456"⟩
      "pub" "priv" "GET" "/p" (by decide)).2 (by decide) (by decide)⟩

/-- Lists with a head have positive length. -/
theorem length_pos_of_head_some {l : List Char} {c : Char} (h : l.head? = some c) :
    1 ≤ l.length := by
  cases l with
  | nil => simp at h
  | cons a t => simp

/-- Non-empty lists have positive length. -/
theorem length_pos_of_not_isEmpty {l : List Char} (h : ¬ l.isEmpty = true) :
    1 ≤ l.length := by
  cases l with
  | nil => simp at h
  | cons a t => simp

/-- Every successful anchored match consumes at least one character. -/
theorem matchAt_rest_length {s : List Char} {m : String × String × String}
    {rest : List Char} (h : matchAt s = some (m, rest)) : rest.length < s.length := by
  unfold matchAt at h
  simp only [] at h
  have hkle : (s.takeWhile isWordChar).length + (s.dropWhile isWordChar).length = s.length := by
    rw [← List.length_append, List.takeWhile_append_dropWhile]
  split_ifs at h with h1 h2 h3 h4 h5
  all_goals try (exfalso; exact Option.noConfusion h)
  · simp only [Option.some.injEq, Prod.mk.injEq] at h
    obtain ⟨hm, hrest⟩ := h
    have hk2 := length_pos_of_not_isEmpty h1
    have hal := length_pos_of_head_some h2
    have hrl := length_pos_of_head_some h3
    have hreml := length_pos_of_head_some h4
    rw [← hrest]
    simp only [List.length_tail, List.length_drop]
    omega
  · simp only [Option.some.injEq, Prod.mk.injEq] at h
    obtain ⟨hm, hrest⟩ := h
    have hk2 := length_pos_of_not_isEmpty h1
    have hal := length_pos_of_head_some h2
    rw [← hrest]
    simp only [List.length_tail, List.length_drop]
    omega
  · simp only [Option.some.injEq, Prod.mk.injEq] at h
    obtain ⟨hm, hrest⟩ := h
    have hk2 := length_pos_of_not_isEmpty h1
    have hal := length_pos_of_head_some h2
    rw [← hrest]
    simp only [List.length_tail, List.length_drop]
    omega

/-- One unfolding of the fuelled scan. -/
theorem findAllAux_succ (fuel : Nat) (s : List Char) :
    findAllAux (fuel + 1) s =
      match matchAt s with
      | some (m, rest) => m :: findAllAux fuel rest
      | none => match s with | [] => [] | _ :: t => findAllAux fuel t := rfl

/-- The scan result does not depend on the fuel once it covers the input
length. -/
theorem findAllAux_stable : ∀ (f g : Nat) (s : List Char),
    s.length ≤ f → s.length ≤ g → findAllAux f s = findAllAux g s := by
  intro f
  induction f with
  | zero =>
    intro g s hf _
    have hs : s = [] := by cases s with | nil => rfl | cons a t => simp at hf
    subst hs
    cases g with
    | zero => rfl
    | succ g => rfl
  | succ f ih =>
    intro g s hf hg
    cases s with
    | nil =>
      cases g with
      | zero => rfl
      | succ g => rfl
    | cons c t =>
      obtain ⟨g', rfl⟩ : ∃ g', g = g' + 1 :=
        ⟨g - 1, by have := hg; simp at this; omega⟩
      cases hm : matchAt (c :: t) with
      | some mr =>
        obtain ⟨m, rest⟩ := mr
        have hlt := matchAt_rest_length hm
        simp only [findAllAux_succ, hm]
        exact congrArg (m :: ·) (ih g' rest (by simp at hlt hf ⊢; omega)
          (by simp at hlt hg ⊢; omega))
      | none =>
        simp only [findAllAux_succ, hm]
        exact ih g' t (by simp at hf; omega) (by simp at hg; omega)

/-- The scan takes an anchored match and continues after it. -/
theorem findAll_match {s : List Char} {m : String × String × String}
    {rest : List Char} (h : matchAt s = some (m, rest)) :
    findAll s = m :: findAll rest := by
  have hlt := matchAt_rest_length h
  unfold findAll
  obtain ⟨n, hn⟩ : ∃ n, s.length = n + 1 := ⟨s.length - 1, by omega⟩
  rw [hn, findAllAux_succ]
  simp only [h]
  exact congrArg (m :: ·) (findAllAux_stable n rest.length rest (by omega) le_rfl)

/-- The scan skips a character at which no match starts. -/
theorem findAll_skip {c : Char} {t : List Char} (h : matchAt (c :: t) = none) :
    findAll (c :: t) = findAll t := by
  unfold findAll
  rw [show (c :: t).length = t.length + 1 from rfl, findAllAux_succ]
  simp only [h]

/-- Character list of a non-empty string is non-empty. -/
theorem toList_ne_nil {s : String} (h : ¬ s = "") : ¬ s.toList = [] :=
  fun h0 => h (String.ext (h0.trans rfl))

/-- The anchored match on a well-formed quoted pair: key captured as group
1, value as group 2, the remainder untouched. -/
theorem matchAt_quoted (k v : String) (rest : List Char)
    (hk : ¬ k = "") (hkw : ∀ c ∈ k.toList, isWordChar c = true)
    (hv : ∀ c ∈ v.toList, ¬ c = '"') :
    matchAt (k.toList ++ '=' :: '"' :: (v.toList ++ '"' :: rest)) = some ((k, v, ""), rest) := by
  have hknil := toList_ne_nil hk
  unfold matchAt
  simp only []
  have htw : (k.toList ++ '=' :: '"' :: (v.toList ++ '"' :: rest)).takeWhile isWordChar
      = k.toList := by
    rw [List.takeWhile_append_of_pos hkw,
      List.takeWhile_cons_of_neg (by decide : ¬ isWordChar '=' = true)]
    simp
  have hvw : (v.toList ++ '"' :: rest).takeWhile (fun x => decide (x ≠ '"')) = v.toList := by
    rw [List.takeWhile_append_of_pos (fun c hc => by simpa using hv c hc),
      List.takeWhile_cons_of_neg (by decide)]
    simp
  rw [htw, if_neg (by simpa [List.isEmpty_iff] using hknil), List.drop_left]
  simp only [List.head?_cons, List.tail_cons, if_true]
  rw [hvw, List.drop_left]
  simp only [List.head?_cons, List.tail_cons, if_true]
  rfl

/-- The anchored match on a well-formed unquoted pair followed by a
separator or the end of input: key as group 1, value as group 3. -/
theorem matchAt_unquoted (k v : String) (rest : List Char)
    (hk : ¬ k = "") (hkw : ∀ c ∈ k.toList, isWordChar c = true)
    (hv1 : ¬ v = "")
    (hv2 : ∀ c ∈ v.toList, isSpaceChar c = false ∧ ¬ c = ',')
    (hv3 : ¬ v.toList.head? = some '"')
    (hrest : rest = [] ∨ ∃ t, rest = ',' :: t) :
    matchAt (k.toList ++ '=' :: (v.toList ++ rest)) = some ((k, "", v), rest) := by
  have hknil := toList_ne_nil hk
  have hvnil := toList_ne_nil hv1
  unfold matchAt
  simp only []
  have htw : (k.toList ++ '=' :: (v.toList ++ rest)).takeWhile isWordChar = k.toList := by
    rw [List.takeWhile_append_of_pos hkw,
      List.takeWhile_cons_of_neg (by decide : ¬ isWordChar '=' = true)]
    simp
  rw [htw, if_neg (by simpa [List.isEmpty_iff] using hknil), List.drop_left]
  simp only [List.head?_cons, List.tail_cons, if_true]
  have hhead : ¬ (v.toList ++ rest).head? = some '"' := by
    cases hx : v.toList with
    | nil => exact absurd hx hvnil
    | cons a t =>
      rw [hx] at hv3
      simpa using hv3
  rw [if_neg hhead]
  have hv2w : (v.toList ++ rest).takeWhile (fun x => !isSpaceChar x && decide (x ≠ ',')) =
      v.toList := by
    rw [List.takeWhile_append_of_pos (fun c hc => by
      obtain ⟨hs, hc2⟩ := hv2 c hc
      simp [hs, hc2])]
    rcases hrest with rfl | ⟨t, rfl⟩
    · simp
    · rw [List.takeWhile_cons_of_neg (by decide)]
      simp
  rw [hv2w, if_neg (by simpa [List.isEmpty_iff] using hvnil), List.drop_left]
  rfl

/-- No match starts at a comma. -/
theorem matchAt_comma (t : List Char) : matchAt (',' :: t) = none := rfl

/-- No match starts at a space. -/
theorem matchAt_space (t : List Char) : matchAt (' ' :: t) = none := rfl

/-- The scan of a rendered well-formed pair list recovers exactly its pairs,
with each value in the group the regular expression assigns it. -/
theorem findAll_render : ∀ (ps : List (String × String × Bool)), (∀ p ∈ ps, WFPair p) →
    findAll (renderPairs ps) =
      ps.map (fun p => if p.2.2 then (p.1, p.2.1, "") else (p.1, "", p.2.1)) := by
  intro ps
  induction ps with
  | nil => intro _; rfl
  | cons p tl ih =>
    intro hwf
    obtain ⟨hk, hkw, hval⟩ := hwf p (List.mem_cons_self p tl)
    cases tl with
    | nil =>
      show findAll (renderPair p) = _
      rcases hval with ⟨hq, hv⟩ | ⟨hq, hv1, hv2, hv3⟩
      · have hr : renderPair p = p.1.toList ++ '=' :: '"' :: (p.2.1.toList ++ '"' :: []) := by
          unfold renderPair
          rw [hq]
          simp
        rw [hr, findAll_match (matchAt_quoted p.1 p.2.1 [] hk hkw hv)]
        simp [hq]
        rfl
      · have hr : renderPair p = p.1.toList ++ '=' :: (p.2.1.toList ++ []) := by
          unfold renderPair
          rw [hq]
          simp
        rw [hr, findAll_match (matchAt_unquoted p.1 p.2.1 [] hk hkw hv1 hv2 hv3 (Or.inl rfl))]
        simp [hq]
        rfl
    | cons q tl2 =>
      show findAll (renderPair p ++ ',' :: ' ' :: renderPairs (q :: tl2)) = _
      have hihyp : ∀ r ∈ q :: tl2, WFPair r := fun r hr => hwf r (List.mem_cons_of_mem p hr)
      rcases hval with ⟨hq2, hv⟩ | ⟨hq2, hv1, hv2, hv3⟩
      · have hr : renderPair p ++ ',' :: ' ' :: renderPairs (q :: tl2) =
            p.1.toList ++ '=' :: '"' ::
              (p.2.1.toList ++ '"' :: (',' :: ' ' :: renderPairs (q :: tl2))) := by
          unfold renderPair
          rw [hq2]
          simp
        rw [hr, findAll_match (matchAt_quoted p.1 p.2.1 _ hk hkw hv),
          findAll_skip (matchAt_comma _), findAll_skip (matchAt_space _), ih hihyp]
        simp [hq2]
      · have hr : renderPair p ++ ',' :: ' ' :: renderPairs (q :: tl2) =
            p.1.toList ++ '=' :: (p.2.1.toList ++ ',' :: ' ' :: renderPairs (q :: tl2)) := by
          unfold renderPair
          rw [hq2]
          simp
        rw [hr, findAll_match (matchAt_unquoted p.1 p.2.1 _ hk hkw hv1 hv2 hv3
            (Or.inr ⟨_, rfl⟩)),
          findAll_skip (matchAt_comma _), findAll_skip (matchAt_space _), ih hihyp]
        simp [hq2]

/-- Verbatim capture: the pair list `parseKeyValuePairs` extracts from a
rendered well-formed pair list is exactly that list. -/
theorem pairsOf_render (ps : List (String × String × Bool)) (h : ∀ p ∈ ps, WFPair p) :
    pairsOf (renderPairs ps) = ps.map (fun p => (p.1, p.2.1)) := by
  unfold pairsOf
  rw [findAll_render ps h, List.map_map]
  apply List.map_congr_left
  intro p _
  by_cases hb : p.2.2
  · by_cases hv : p.2.1 = "" <;> simp [hb, hv, groupValue]
  · simp [hb, groupValue]

/-- A list is a prefix of itself followed by anything. -/
theorem hasPrefixChars_append (a b : List Char) : hasPrefixChars (a ++ b) a = true := by
  induction a with
  | nil =>
    cases b with
    | nil => rfl
    | cons c t => rfl
  | cons c t ih => simp [hasPrefixChars, ih]

/-- Character list of a `"Digest "`-prefixed header. -/
theorem digest_header_toList (x : String) :
    ("Digest " ++ x).toList = "Digest ".toList ++ x.toList := String.data_append _ _

/-- Dropping the scheme of a `"Digest "`-prefixed header leaves the body. -/
theorem digest_header_drop (x : String) :
    ("Digest " ++ x).toList.drop 7 = x.toList := by
  rw [digest_header_toList]
  exact List.drop_left' (by rfl)

/-- A `"Digest "`-prefixed header is not the empty string. -/
theorem digest_header_ne_empty (x : String) : ¬ ("Digest " ++ x) = "" := by
  intro h
  have h2 := congrArg String.toList h
  rw [digest_header_toList] at h2
  simp at h2

/-- A `"Digest "`-prefixed header passes the scheme check. -/
theorem digest_header_hasPrefix (x : String) :
    hasPrefixChars ("Digest " ++ x).toList "Digest ".toList = true := by
  rw [digest_header_toList]
  exact hasPrefixChars_append _ _

/-- Round trip of `String.asString`. -/
theorem asString_toList (l : List Char) : l.asString.toList = l := rfl

/-- Behaviour of `ParseChallenge` on any non-empty header with the
`"Digest "` scheme, in terms of the parsed pair map: success exactly when
realm and nonce are present and non-empty, every challenge field overwritten
with its looked-up value (algorithm defaulting to `"MD5"`), and the fresh
client nonce stored on success. -/
theorem parseChallenge_spec (d : DigestAuth) (cn hdr : String)
    (hne : ¬ hdr = "")
    (hpre : hasPrefixChars hdr.toList "Digest ".toList = true) :
    ((ParseChallenge d cn hdr).1 = none ↔
      (lookupPair (pairsOf (hdr.toList.drop 7)) "realm" ≠ "" ∧
       lookupPair (pairsOf (hdr.toList.drop 7)) "nonce" ≠ "")) ∧
    (ParseChallenge d cn hdr).2.realm = lookupPair (pairsOf (hdr.toList.drop 7)) "realm" ∧
    (ParseChallenge d cn hdr).2.nonce = lookupPair (pairsOf (hdr.toList.drop 7)) "nonce" ∧
    (ParseChallenge d cn hdr).2.qop = lookupPair (pairsOf (hdr.toList.drop 7)) "qop" ∧
    (ParseChallenge d cn hdr).2.opaqueV = lookupPair (pairsOf (hdr.toList.drop 7)) "opaque" ∧
    (ParseChallenge d cn hdr).2.algorithm =
      (if lookupPair (pairsOf (hdr.toList.drop 7)) "algorithm" = "" then "MD5"
       else lookupPair (pairsOf (hdr.toList.drop 7)) "algorithm") ∧
    ((ParseChallenge d cn hdr).1 = none → (ParseChallenge d cn hdr).2.cnonce = cn) := by
  have hnotf : ¬ hasPrefixChars hdr.toList "Digest ".toList = false := by
    rw [hpre]; simp
  unfold ParseChallenge
  rw [if_neg hne, if_neg hnotf]
  simp only []
  split_ifs with h1 h2 h3 h4 h5
  all_goals refine ⟨?_, rfl, rfl, rfl, rfl, rfl, ?_⟩
  all_goals first
    | exact fun h => h.elim
    | exact fun _ => rfl
    | exact ⟨False.elim, fun hcon => (hcon.1 ‹_›).elim⟩
    | exact ⟨False.elim, fun hcon => (hcon.2 ‹_›).elim⟩
    | exact ⟨fun _ => ⟨‹_›, ‹_›⟩, fun _ => rfl⟩

/-- C10: `ParseChallenge` is not atomic on failure.  For every header with
the `"Digest "` scheme whose pairs lack a realm or a nonce, the stored
challenge fields (realm, nonce, qop, opaque, algorithm — the last with its
`"MD5"` default) are all overwritten with the new challenge's values before
the error returns; in particular a missing nonce clears a previously stored
nonce, after which `GenerateAuthHeader` returns the empty string.  Only the
empty-header and wrong-scheme failures leave the state unchanged. -/
theorem parseChallenge_not_atomic (d : DigestAuth) (cn hdr : String)
    (hash : String → String) (u pw m uri : String)
    (hpre : hasPrefixChars hdr.toList "Digest ".toList = true)
    (hfail : lookupPair (pairsOf (hdr.toList.drop 7)) "realm" = "" ∨
             lookupPair (pairsOf (hdr.toList.drop 7)) "nonce" = "") :
    ((ParseChallenge d cn hdr).1 ≠ none ∧
     (ParseChallenge d cn hdr).2.realm = lookupPair (pairsOf (hdr.toList.drop 7)) "realm" ∧
     (ParseChallenge d cn hdr).2.nonce = lookupPair (pairsOf (hdr.toList.drop 7)) "nonce" ∧
     (ParseChallenge d cn hdr).2.qop = lookupPair (pairsOf (hdr.toList.drop 7)) "qop" ∧
     (ParseChallenge d cn hdr).2.opaqueV = lookupPair (pairsOf (hdr.toList.drop 7)) "opaque" ∧
     (ParseChallenge d cn hdr).2.algorithm =
       (if lookupPair (pairsOf (hdr.toList.drop 7)) "algorithm" = "" then "MD5"
        else lookupPair (pairsOf (hdr.toList.drop 7)) "algorithm")) ∧
    (lookupPair (pairsOf (hdr.toList.drop 7)) "nonce" = "" →
      GenerateAuthHeader hash (ParseChallenge d cn hdr).2 u pw m uri = "") ∧
    (ParseChallenge d cn "").2 = d ∧
    (∀ h2 : String, hasPrefixChars h2.toList "Digest ".toList = false →
      (ParseChallenge d cn h2).2 = d) := by
  have hne : ¬ hdr = "" := by
    intro h0
    rw [h0] at hpre
    exact absurd hpre (by decide)
  obtain ⟨hiff, hrealm, hnonce, hqop, hopq, halg, -⟩ := parseChallenge_spec d cn hdr hne hpre
  have hsome : (ParseChallenge d cn hdr).1 ≠ none := by
    intro h0
    rcases hiff.mp h0 with ⟨hr2, hn2⟩
    rcases hfail with hr | hn
    · exact hr2 hr
    · exact hn2 hn
  refine ⟨⟨hsome, hrealm, hnonce, hqop, hopq, halg⟩, ?_, rfl, ?_⟩
  · intro hlk
    unfold GenerateAuthHeader
    rw [if_pos (show (ParseChallenge d cn hdr).2.nonce = "" from by rw [hnonce]; exact hlk)]
  · intro h2 hh2
    unfold ParseChallenge
    by_cases he : h2 = ""
    · rw [if_pos he]
    · rw [if_neg he, if_pos hh2]

/-- Closed witness for non-atomicity: parsing `Digest realm="r"` (no nonce)
over a state holding a valid nonce fails but overwrites every challenge
field, clearing the nonce, after which header generation yields `""`. -/
theorem parseChallenge_not_atomic_witness :
    ((ParseChallenge ⟨"oldrealm", "oldnonce", "auth", "oldop", "MD5", 1, "oldcn"⟩
        "cn" "Digest realm=\"r\"").1 ≠ none ∧
     (ParseChallenge ⟨"oldrealm", "oldnonce", "auth", "oldop", "MD5", 1, "oldcn"⟩
        "cn" "Digest realm=\"r\"").2.realm = "r" ∧
     (ParseChallenge ⟨"oldrealm", "oldnonce", "auth", "oldop", "MD5", 1, "oldcn"⟩
        "cn" "Digest realm=\"r\"").2.nonce = "" ∧
     (ParseChallenge ⟨"oldrealm", "oldnonce", "auth", "oldop", "MD5", 1, "oldcn"⟩
        "cn" "Digest realm=\"r\"").2.qop = "" ∧
     (ParseChallenge ⟨"oldrealm", "oldnonce", "auth", "oldop", "MD5", 1, "oldcn"⟩
        "cn" "Digest realm=\"r\"").2.opaqueV = "" ∧
     (ParseChallenge ⟨"oldrealm", "oldnonce", "auth", "oldop", "MD5", 1, "oldcn"⟩
        "cn" "Digest realm=\"r\"").2.algorithm = "MD5") ∧
    ((("" : String) = "") →
      GenerateAuthHeader (fun s => s)
        (ParseChallenge ⟨"oldrealm", "oldnonce", "auth", "oldop", "MD5", 1, "oldcn"⟩
          "cn" "Digest realm=\"r\"").2 "u" "p" "GET" "/x" = "") ∧
    (ParseChallenge ⟨"oldrealm", "oldnonce", "auth", "oldop", "MD5", 1, "oldcn"⟩
        "cn" "").2 = ⟨"oldrealm", "oldnonce", "auth", "oldop", "MD5", 1, "oldcn"⟩ ∧
    (∀ h2 : String, hasPrefixChars h2.toList "Digest ".toList = false →
      (ParseChallenge ⟨"oldrealm", "oldnonce", "auth", "oldop", "MD5", 1, "oldcn"⟩
        "cn" h2).2 = ⟨"oldrealm", "oldnonce", "auth", "oldop", "MD5", 1, "oldcn"⟩) :=
  parseChallenge_not_atomic ⟨"oldrealm", "oldnonce", "auth", "oldop", "MD5", 1, "oldcn"⟩
    "cn" "Digest realm=\"r\"" (fun s => s) "u" "p" "GET" "/x"
    (by decide) (Or.inr (by decide))

/-- C6: for every header `"Digest "` followed by a well-formed key-value
pair list (quoted or unquoted values), parsing captures every present pair
verbatim; it succeeds exactly when the pairs include a non-empty realm and a
non-empty nonce, in which case the parsed fields hold the captured values,
with the algorithm defaulting to `"MD5"` when absent; and it fails on an
empty header, a header not carrying the Digest scheme, or a challenge whose
pairs lack realm or nonce. -/
theorem parseChallenge_wellformed (d : DigestAuth) (cn : String)
    (ps : List (String × String × Bool)) (hwf : ∀ p ∈ ps, WFPair p) :
    (parseKeyValuePairs (renderPairs ps).asString = ps.map (fun p => (p.1, p.2.1))) ∧
    ((ParseChallenge d cn ("Digest " ++ (renderPairs ps).asString)).1 = none ↔
      (lookupPair (ps.map fun p => (p.1, p.2.1)) "realm" ≠ "" ∧
       lookupPair (ps.map fun p => (p.1, p.2.1)) "nonce" ≠ "")) ∧
    ((ParseChallenge d cn ("Digest " ++ (renderPairs ps).asString)).1 = none →
      ((ParseChallenge d cn ("Digest " ++ (renderPairs ps).asString)).2.realm =
          lookupPair (ps.map fun p => (p.1, p.2.1)) "realm" ∧
       (ParseChallenge d cn ("Digest " ++ (renderPairs ps).asString)).2.nonce =
          lookupPair (ps.map fun p => (p.1, p.2.1)) "nonce" ∧
       (ParseChallenge d cn ("Digest " ++ (renderPairs ps).asString)).2.qop =
          lookupPair (ps.map fun p => (p.1, p.2.1)) "qop" ∧
       (ParseChallenge d cn ("Digest " ++ (renderPairs ps).asString)).2.opaqueV =
          lookupPair (ps.map fun p => (p.1, p.2.1)) "opaque" ∧
       (ParseChallenge d cn ("Digest " ++ (renderPairs ps).asString)).2.algorithm =
         (if lookupPair (ps.map fun p => (p.1, p.2.1)) "algorithm" = "" then "MD5"
          else lookupPair (ps.map fun p => (p.1, p.2.1)) "algorithm"))) ∧
    ((ParseChallenge d cn "").1 ≠ none) ∧
    (∀ hdr2 : String, hasPrefixChars hdr2.toList "Digest ".toList = false →
      (ParseChallenge d cn hdr2).1 ≠ none) := by
  have hpairs : pairsOf (("Digest " ++ (renderPairs ps).asString).toList.drop 7) =
      ps.map (fun p => (p.1, p.2.1)) := by
    rw [digest_header_drop, asString_toList]
    exact pairsOf_render ps hwf
  obtain ⟨hiff, hrealm, hnonce, hqop, hopq, halg, -⟩ :=
    parseChallenge_spec d cn ("Digest " ++ (renderPairs ps).asString)
      (digest_header_ne_empty _) (digest_header_hasPrefix _)
  rw [hpairs] at hiff hrealm hnonce hqop hopq halg
  refine ⟨?_, hiff, fun _ => ⟨hrealm, hnonce, hqop, hopq, halg⟩, by simp [ParseChallenge], ?_⟩
  · show pairsOf (renderPairs ps).asString.toList = _
    rw [asString_toList]
    exact pairsOf_render ps hwf
  · intro hdr2 hh2
    unfold ParseChallenge
    by_cases he : hdr2 = ""
    · rw [if_pos he]; simp
    · rw [if_neg he, if_pos hh2]; simp

/-- Closed witness: the spec's example challenge with two quoted pairs and
one unquoted pair is captured verbatim, parses successfully, and populates
every field; the empty header fails. -/
theorem parseChallenge_wellformed_witness :
    parseKeyValuePairs "realm=\"tidbcloud\", nonce=\"abc123\", qop=auth" =
      [("realm", "tidbcloud"), ("nonce", "abc123"), ("qop", "auth")] ∧
    (ParseChallenge NewDigestAuth "cn"
      "Digest realm=\"tidbcloud\", nonce=\"abc123\", qop=auth").1 = none ∧
    (ParseChallenge NewDigestAuth "cn"
      "Digest realm=\"tidbcloud\", nonce=\"abc123\", qop=auth").2.realm = "tidbcloud" ∧
    (ParseChallenge NewDigestAuth "cn"
      "Digest realm=\"tidbcloud\", nonce=\"abc123\", qop=auth").2.nonce = "abc123" ∧
    (ParseChallenge NewDigestAuth "cn"
      "Digest realm=\"tidbcloud\", nonce=\"abc123\", qop=auth").2.qop = "auth" ∧
    (ParseChallenge NewDigestAuth "cn"
      "Digest realm=\"tidbcloud\", nonce=\"abc123\", qop=auth").2.algorithm = "MD5" ∧
    (ParseChallenge NewDigestAuth "cn" "").1 ≠ none := by
  have T := parseChallenge_wellformed NewDigestAuth "cn"
    [("realm", "tidbcloud", true), ("nonce", "abc123", true), ("qop", "auth", false)]
    (by decide)
  have hsucc : (ParseChallenge NewDigestAuth "cn"
      "Digest realm=\"tidbcloud\", nonce=\"abc123\", qop=auth").1 = none :=
    T.2.1.mpr ⟨by decide, by decide⟩
  have hfields := T.2.2.1 hsucc
  exact ⟨T.1, hsucc, hfields.1, hfields.2.1, hfields.2.2.1, hfields.2.2.2.2, T.2.2.2.1⟩

/-- Querying a header set for the key just written. -/
theorem filter_headerSet_self (hdr : List (String × List String)) (k v : String) :
    (headerSet hdr k v).filter (fun p => p.1 = k) = [(k, [v])] := by
  unfold headerSet
  rw [List.filter_append, List.filter_filter]
  have h1 : hdr.filter (fun a => decide (a.1 = k) && decide (a.1 ≠ k)) = [] := by
    apply List.filter_eq_nil_iff.mpr
    intro a _
    by_cases ha : a.1 = k <;> simp [ha]
  rw [h1]
  simp [List.filter_cons]

/-- Querying a header set for a different key sees the original headers. -/
theorem filter_headerSet_other (hdr : List (String × List String)) (k v k' : String)
    (hk : ¬ k' = k) :
    (headerSet hdr k v).filter (fun p => p.1 = k') = hdr.filter (fun p => p.1 = k') := by
  unfold headerSet
  rw [List.filter_append, List.filter_filter]
  have h2 : (([(k, [v])] : List (String × List String)).filter (fun p => p.1 = k')) = [] := by
    simp [List.filter_cons]
    exact fun h => hk h.symm
  rw [h2, List.append_nil]
  apply List.filter_congr
  intro a _
  by_cases ha : a.1 = k'
  · have ha2 : a.1 ≠ k := by rw [ha]; exact hk
    simp [ha, ha2, hk]
  · simp [ha]

/-- C2 (amended): for every dispatched request the dispatcher first sends
the caller's request as-is, attaching no credential header of its own; a
transport error, a non-401 response, or a 401 without a `WWW-Authenticate`
header is returned as-is after that single send; on a 401 with a challenge
header it parses the challenge — if parsing succeeds it sends exactly once
more a request with the same method, URL, path and buffered body, the same
headers apart from `Authorization` set to the generated digest header, and
returns that second result (success or failure) with no further
in-handshake retry; if challenge parsing fails, the attempt fails with a
challenge-parse error and no second send occurs. -/
theorem executeHTTPRequest_spec (h : String → String) (cn : String)
    (httpDo : Nat → Request → Except String Response) (c : ClientState) (req : Request) :
    (∀ e, httpDo 0 req = .error e →
      executeHTTPRequest h cn httpDo c req =
        { result := .error e, sent := [req], finalAuth := c.digestAuth }) ∧
    (∀ resp, httpDo 0 req = .ok resp →
      ¬ (resp.StatusCode = 401 ∧ resp.wwwAuthenticate ≠ "") →
      executeHTTPRequest h cn httpDo c req =
        { result := .ok resp, sent := [req], finalAuth := c.digestAuth }) ∧
    (∀ resp err d1, httpDo 0 req = .ok resp →
      resp.StatusCode = 401 → resp.wwwAuthenticate ≠ "" →
      ParseChallenge c.digestAuth cn resp.wwwAuthenticate = (some err, d1) →
      executeHTTPRequest h cn httpDo c req =
        { result := .error ("failed to parse auth challenge: " ++ err)
          sent := [req], finalAuth := d1 }) ∧
    (∀ resp d1, httpDo 0 req = .ok resp →
      resp.StatusCode = 401 → resp.wwwAuthenticate ≠ "" →
      ParseChallenge c.digestAuth cn resp.wwwAuthenticate = (none, d1) →
      ∃ newReq,
        executeHTTPRequest h cn httpDo c req =
          { result := httpDo 1 newReq, sent := [req, newReq], finalAuth := d1 } ∧
        newReq.Method = req.Method ∧ newReq.URL = req.URL ∧ newReq.Path = req.Path ∧
        newReq.Body = req.Body ∧
        (∀ k, ¬ k = "Authorization" →
          newReq.Header.filter (fun p => p.1 = k) = req.Header.filter (fun p => p.1 = k)) ∧
        newReq.Header.filter (fun p => p.1 = "Authorization") =
          [("Authorization",
            [GenerateAuthHeader h d1 c.publicKey c.privateKey req.Method req.Path])]) := by
  refine ⟨?_, ?_, ?_, ?_⟩
  · intro e he
    unfold executeHTTPRequest
    rw [he]
  · intro resp hok hno
    unfold executeHTTPRequest
    rw [hok]
    simp only [if_neg hno]
  · intro resp err d1 hok h401 hww hparse
    unfold executeHTTPRequest
    rw [hok]
    simp only [if_pos (And.intro h401 hww), hparse]
  · intro resp d1 hok h401 hww hparse
    unfold executeHTTPRequest
    rw [hok]
    simp only [if_pos (And.intro h401 hww), hparse]
    refine ⟨_, rfl, rfl, rfl, rfl, rfl, ?_, ?_⟩
    · intro k hk
      exact filter_headerSet_other req.Header "Authorization" _ k hk
    · exact filter_headerSet_self req.Header "Authorization" _

/-- C2 (counterexample to the claim as stated): a 401 whose
`WWW-Authenticate` header is present but not a Digest challenge does not
lead to a second send — the dispatcher returns a challenge-parse error after
exactly one send, not the result of a second one. -/
theorem executeHTTPRequest_claim_counterexample :
    (executeHTTPRequest (fun s => s) "cn"
        (fun _ _ => .ok ⟨401, "Basic realm=x", "", none⟩)
        ⟨"pub", "priv", NewDigestAuth⟩
        ⟨"GET", "https://api.example.com/p", "/p", [], none⟩).sent.length = 1 ∧
    (executeHTTPRequest (fun s => s) "cn"
        (fun _ _ => .ok ⟨401, "Basic realm=x", "", none⟩)
        ⟨"pub", "priv", NewDigestAuth⟩
        ⟨"GET", "https://api.example.com/p", "/p", [], none⟩).sent.length ≠ 2 ∧
    (executeHTTPRequest (fun s => s) "cn"
        (fun _ _ => .ok ⟨401, "Basic realm=x", "", none⟩)
        ⟨"pub", "priv", NewDigestAuth⟩
        ⟨"GET", "https://api.example.com/p", "/p", [], none⟩).result =
      .error "failed to parse auth challenge: not a digest auth header" ∧
    (401 : Int) = 401 ∧ ¬ ("Basic realm=x" : String) = "" := by
  refine ⟨rfl, by decide, rfl, rfl, by decide⟩

/-- Closed witness for the amended dispatcher contract: scenario A of the
spec — a 401 Digest challenge on the first send, then the authenticated
resend carrying the generated credential header, returning the second
response. -/
theorem executeHTTPRequest_spec_witness :
    ∃ newReq,
      executeHTTPRequest (fun s => s) "cn"
          (fun n _ => if n = 0 then
              (.ok ⟨401, "Digest realm=\"r\", nonce=\"n1\"", "", none⟩ : Except String Response)
            else .ok ⟨200, "", "", none⟩)
          ⟨"pub", "priv", NewDigestAuth⟩
          ⟨"GET", "https://api.example.com/p", "/p", [("Accept", ["application/json"])],
            some [123]⟩ =
        { result := (fun n (_ : Request) => if n = 0 then
              (.ok ⟨401, "Digest realm=\"r\", nonce=\"n1\"", "", none⟩ : Except String Response)
            else .ok ⟨200, "", "", none⟩) 1 newReq
          sent := [⟨"GET", "https://api.example.com/p", "/p",
              [("Accept", ["application/json"])], some [123]⟩, newReq]
          finalAuth := ⟨"r", "n1", "", "", "MD5", 1, "cn"⟩ } ∧
      newReq.Method = "GET" ∧ newReq.URL = "https://api.example.com/p" ∧
      newReq.Path = "/p" ∧ newReq.Body = some [123] ∧
      (∀ k, ¬ k = "Authorization" →
        newReq.Header.filter (fun p => p.1 = k) =
          [("Accept", ["application/json"])].filter (fun p => p.1 = k)) ∧
      newReq.Header.filter (fun p => p.1 = "Authorization") =
        [("Authorization",
          [GenerateAuthHeader (fun s => s) ⟨"r", "n1", "", "", "MD5", 1, "cn"⟩
            "pub" "priv" "GET" "/p"])] :=
  (executeHTTPRequest_spec (fun s => s) "cn"
      (fun n _ => if n = 0 then
          (.ok ⟨401, "Digest realm=\"r\", nonce=\"n1\"", "", none⟩ : Except String Response)
        else .ok ⟨200, "", "", none⟩)
      ⟨"pub", "priv", NewDigestAuth⟩
      ⟨"GET", "https://api.example.com/p", "/p", [("Accept", ["application/json"])],
        some [123]⟩).2.2.2
    ⟨401, "Digest realm=\"r\", nonce=\"n1\"", "", none⟩
    ⟨"r", "n1", "", "", "MD5", 1, "cn"⟩
    rfl rfl (by decide) (by decide)

/-- C4 (failing input): with the default policy (`baseDelay` 1s, `maxDelay`
30s), `CalculateDelay 35` overflows `int64` to a negative value rather than
the documented `min(baseDelay * 2^34, maxDelay) = maxDelay`. -/
theorem calculateDelay_overflow_at_35 :
    CalculateDelay NewRetryPolicy 35 = -1266874889709551616 ∧
    min (NewRetryPolicy.BaseDelay * 2 ^ 34) NewRetryPolicy.MaxDelay = 30000000000 ∧
    CalculateDelay NewRetryPolicy 35 ≠
      min (NewRetryPolicy.BaseDelay * 2 ^ 34) NewRetryPolicy.MaxDelay := by
  refine ⟨by decide, by decide, by decide⟩

end TidbCloud
